import Mathlib

/-!
Shallow embedding of `nmpi/nmpi_saga.py` (HBP neuromorphic platform job
orchestrator).  Python strings are modelled as `List Char`, Python dicts
holding the nmpi job record as the structure `QJob`, the SAGA job handle as
`SagaRun`.  Calls to `datetime.now()` are modelled by passing the produced
timestamp strings explicitly (a `Clock` value supplies the results of the
successive `now()` calls made inside one status function).  Remote HTTP
calls and subprocess invocations are modelled by explicit oracle
parameters and by returning the performed actions as data.  Python
exceptions are modelled with `Except`: `Except.error` carries the message
of the exception that propagates out of the modelled code.
-/

/-- Conversion from a Lean string literal to the `List Char` model of a
Python `str`. -/
def pystr (s : String) : List Char := s.toList

/-- Status values of an nmpi job record (`nmpi_job['status']`). -/
inductive JStatus where
  | submitted
  | running
  | finished
  | error
  deriving DecidableEq, Repr

/-- Python rendering of a status value, used in error messages. -/
def statusStr : JStatus → List Char
  | .submitted => pystr "submitted"
  | .running => pystr "running"
  | .finished => pystr "finished"
  | .error => pystr "error"

/-- The nmpi job record (the dict manipulated throughout `nmpi_saga.py`).
`log` models the `log` entry, with the absent key conflated with the empty
string (the source always reads it via `pop("log", str())` or
`pop("log", "")`, which makes the two indistinguishable). -/
structure QJob where
  id : Nat
  status : JStatus
  log : List Char
  code : List Char
  output_data : List (List Char)
  timestamp_completion : Option (List Char)
  resource_usage : Option Nat
  provenance : Option (List (List Char × List Char))
  deriving DecidableEq, Repr

/-- The five SAGA backend job states (`saga.job.PENDING` etc.). -/
inductive SagaState where
  | pending
  | running
  | done
  | failed
  | canceled
  deriving DecidableEq, Repr

/-- Python rendering of a SAGA state, used in the KeyError message. -/
def sagaStateStr : SagaState → List Char
  | .pending => pystr "Pending"
  | .running => pystr "Running"
  | .done => pystr "Done"
  | .failed => pystr "Failed"
  | .canceled => pystr "Canceled"

/-- Model of a SAGA job handle as observed by this code: its id, the
backend state it reports when polled, the contents of its stdout/stderr
files as returned by `read_output` (which already folds the best-effort
IOError fallback into empty strings), and an oracle bit recording whether
`_handle_output_data` fails for this job (that call touches the filesystem
and the remote data service, both external). -/
structure SagaRun where
  sid : List Char
  state : SagaState
  harvest_err : Bool
  stdout : List Char
  stderr : List Char
  deriving DecidableEq, Repr

/-- Results of the successive `datetime.now().isoformat()` calls made
within one status function (`job_done` calls `now()` twice; the others
use only the first component). -/
def Clock : Type := List Char × List Char

/-- Line 40: `MAX_LOG_SIZE = 10000`. -/
def MAX_LOG_SIZE : Nat := 10000

/-- The truncation marker inserted by `truncate_string` (line 66). -/
def trunc_marker : List Char := pystr "\n\n... truncated...\n\n"

/-- Python slice `s[j:]` for an integer `j` that may be negative: a
negative start counts from the end (clamped at 0); a nonnegative start is
an ordinary drop. -/
def pySliceFrom (s : List Char) (j : Int) : List Char :=
  if j < 0 then s.drop (((s.length : Int) + j).toNat)
  else s.drop j.toNat

/-- Lines 62-68, `truncate_string(stream, max_length)`:
if `len(stream) > max_length` return
`stream[:max_length//2] + marker + stream[-max_length//2:]` else `stream`.
Note that Python parses `-max_length//2` as `(-max_length)//2` with floor
division, i.e. `Int.fdiv (-max_length) 2`. -/
def truncate_string (stream : List Char) (max_length : Nat) : List Char :=
  if stream.length > max_length then
    stream.take (max_length / 2) ++ trunc_marker ++
      pySliceFrom stream (Int.fdiv (-(max_length : Int)) 2)
  else stream

/-- Lines 272-288, `read_output(saga_job)`: the stdout/stderr contents of
the SAGA job; the IOError fallback to `("", "")` is folded into the
recorded fields of `SagaRun`. -/
def read_output (saga_job : SagaRun) : List Char × List Char :=
  (saga_job.stdout, saga_job.stderr)

/-- Lines 45-51, `job_pending(nmpi_job, saga_job)`. -/
def job_pending (clock : Clock) (nmpi_job : QJob) (saga_job : SagaRun) : QJob :=
  let j := { nmpi_job with status := JStatus.submitted }
  let log := j.log
  let log := log ++ pystr "Job ID: " ++ saga_job.sid ++ pystr "\n"
  let log := log ++ clock.fst ++ pystr "    pending\n"
  { j with log := log }

/-- Lines 54-59, `job_running(nmpi_job, saga_job)`. -/
def job_running (clock : Clock) (nmpi_job : QJob) (saga_job : SagaRun) : QJob :=
  let j := { nmpi_job with status := JStatus.running }
  let log := j.log ++ clock.fst ++ pystr "    running\n"
  { j with log := log }

/-- Lines 71-85, `job_done(nmpi_job, saga_job)`.  `resource_usage = 1.0`
is modelled as `some 1` and `provenance = {}` as `some []`.  The two
separate `datetime.now()` calls are the two clock components. -/
def job_done (clock : Clock) (nmpi_job : QJob) (saga_job : SagaRun) : QJob :=
  let j := { nmpi_job with status := JStatus.finished,
                           timestamp_completion := some clock.fst,
                           resource_usage := some 1,
                           provenance := some [] }
  let log := j.log ++ clock.snd ++ pystr "    finished\n"
  let out := read_output saga_job
  let log := log ++ pystr "\n\n"
  let log := log ++ truncate_string out.fst MAX_LOG_SIZE
  let log := log ++ pystr "\n\n"
  let log := log ++ truncate_string out.snd MAX_LOG_SIZE
  { j with log := log }

/-- Lines 88-97, `job_failed(nmpi_job, saga_job)`. -/
def job_failed (clock : Clock) (nmpi_job : QJob) (saga_job : SagaRun) : QJob :=
  let j := { nmpi_job with status := JStatus.error }
  let log := j.log ++ clock.fst ++ pystr "    failed\n\n"
  let out := read_output saga_job
  let log := log ++ truncate_string out.fst MAX_LOG_SIZE
  let log := log ++ pystr "\n\nstdout\n------\n\n"
  let log := log ++ truncate_string out.snd MAX_LOG_SIZE
  { j with log := log }

/-- Lines 101-106, the `default_job_states` dict: it has entries for
PENDING, RUNNING, DONE and FAILED only (no CANCELED entry). -/
def default_job_states : List (SagaState × (Clock → QJob → SagaRun → QJob)) :=
  [(SagaState.pending, job_pending),
   (SagaState.running, job_running),
   (SagaState.done, job_done),
   (SagaState.failed, job_failed)]

/-- Python dict subscript `table[state]` on the states dispatch table:
the value when present, otherwise a KeyError. -/
def lookupState {α : Type} : List (SagaState × α) → SagaState → Option α
  | [], _ => none
  | (k, v) :: rest, s => if k = s then some v else lookupState rest s

/-- A remote PUT performed by `HardwareClient`: either the job record
(without its log) to the job resource, or log content to the log
endpoint keyed by job id. -/
inductive RemotePut where
  | putJob : QJob → RemotePut
  | putLog : Nat → List Char → RemotePut
  deriving DecidableEq, Repr

/-- Lines 204-220, `HardwareClient.kill_job(job, error_message)`: raise
unless the status is running or submitted; otherwise set status to
`error`, pop the log, PUT the job, then PUT the popped log extended with
the fixed operator message and `error_message`. -/
def kill_job (job : QJob) (error_message : List Char) :
    Except (List Char) (QJob × List RemotePut) :=
  if job.status ≠ JStatus.running ∧ job.status ≠ JStatus.submitted then
    Except.error (pystr "You cannot kill a job with status " ++ statusStr job.status)
  else
    let job1 := { job with status := JStatus.error }
    let log := job1.log
    let job2 := { job1 with log := [] }
    let log := log ++ pystr "Internal error. Please resubmit the job\n"
    let log := log ++ error_message
    Except.ok (job2, [RemotePut.putJob job2, RemotePut.putLog job.id log])

/-- Lines 439-448, `JobRunner.retrieve_pending_jobs`.  The queue is
modelled as the list of results of the successive `get_next_job` calls;
once the list is exhausted every further call returns `none` (an empty
queue).  The loop body is exactly the source: fetch, break if the result
is `None` or already in `pending_jobs`, and loop — the fetched job is
never appended to `pending_jobs`. -/
def retrieve_pending_jobs_loop (fetches : List (Option QJob)) (pending_jobs : List QJob) :
    List QJob :=
  match fetches with
  | [] => pending_jobs
  | none :: _ => pending_jobs
  | some j :: rest =>
      if pending_jobs.contains j then pending_jobs
      else retrieve_pending_jobs_loop rest pending_jobs

/-- Entry point of `retrieve_pending_jobs`: the loop starts from the
empty accumulator and its result is returned. -/
def retrieve_pending_jobs (fetches : List (Option QJob)) : List QJob :=
  retrieve_pending_jobs_loop fetches []

/-- Lines 592-599, `JobRunner._update_status(nmpi_job, saga_job, job_states)`:
`job_states[saga_state]` is a dict subscript, raising KeyError when the
state has no entry; otherwise the selected status function is applied and
the result pushed via `update_job` (the push itself, a remote PUT, is not
observed by any claim and is elided here). -/
def update_status (clock : Clock) (job_states : List (SagaState × (Clock → QJob → SagaRun → QJob)))
    (nmpi_job : QJob) (saga_job : SagaRun) : Except (List Char) QJob :=
  match lookupState job_states saga_job.state with
  | none => Except.error (pystr "KeyError: " ++ sagaStateStr saga_job.state)
  | some set_status => Except.ok (set_status clock nmpi_job saga_job)

/-- The message of the AttributeError raised by evaluating
`saga_job.job.CANCELED` (line 486): a saga job handle has no attribute
named `job` (the author meant the `saga.job` module). -/
def attr_error_msg : List Char :=
  pystr "AttributeError: Job object has no attribute job"

/-- Actions performed on a job by one round of the wait loop: a kill after
faulty output handling, or a status push via `_update_status`. -/
inductive WaitAction where
  | killed : List Char → WaitAction
  | updated : List Char → SagaState → WaitAction
  deriving DecidableEq, Repr

/-- Lines 473-492, the `for nmpi_job, saga_job in pending_jobs` body of
`wait_on_completion`, with CPython's list-iterator semantics made
explicit: the iterator keeps a cursor `i` which advances by one after
every iteration, while `pending_jobs.remove(...)` deletes the current
element in place (so the element that shifts into position `i` is skipped
this round).  `saga_job.wait(100)` is a timed wait with no modelled
effect.  For state DONE, `_handle_output_data` succeeds or fails per the
job's recorded oracle bit; failure kills the job, removes it and
continues.  DONE and FAILED fall through to the shared remove and
`_update_status`.  Any other state reaches the third `elif`, whose guard
`saga_job.job.CANCELED` reads a nonexistent attribute and raises
AttributeError before any comparison or dispatch happens. -/
def wait_for_round (i : Nat) (lst : List (QJob × SagaRun)) (acc : List WaitAction) :
    Except (List Char) (List (QJob × SagaRun) × List WaitAction) :=
  if h : i < lst.length then
    let pr := lst.get ⟨i, h⟩
    match pr.2.state with
    | SagaState.done =>
        if pr.2.harvest_err then
          wait_for_round (i + 1) (lst.eraseIdx i) (acc ++ [WaitAction.killed pr.2.sid])
        else
          wait_for_round (i + 1) (lst.eraseIdx i)
            (acc ++ [WaitAction.updated pr.2.sid SagaState.done])
    | SagaState.failed =>
        wait_for_round (i + 1) (lst.eraseIdx i)
          (acc ++ [WaitAction.updated pr.2.sid SagaState.failed])
    | _ => Except.error attr_error_msg
  else Except.ok (lst, acc)
termination_by lst.length - i
decreasing_by
  all_goals
    simp only [List.length_eraseIdx, h, if_true]
    omega

/-- Line 471: `if pending_jobs is []`.  Python's `is` compares object
identity and the literal `[]` creates a fresh list object, so no
pre-existing list — empty or not — is ever identical to it: the test is
always False. -/
def pending_jobs_is_empty_literal (_pending_jobs : List (QJob × SagaRun)) : Bool :=
  false

/-- Lines 466-492, `JobRunner.wait_on_completion(pending_jobs)`, as a
fuel-indexed unfolding of the `while True` loop: `Except.ok none` means
the fuel ran out with the loop still spinning, `Except.ok (some acc)`
means the loop took the `break` and the function returned, and
`Except.error` is an exception escaping the loop body. -/
def wait_on_completion (fuel : Nat) (pending_jobs : List (QJob × SagaRun))
    (acc : List WaitAction) : Except (List Char) (Option (List WaitAction)) :=
  match fuel with
  | 0 => Except.ok none
  | fuel' + 1 =>
      if pending_jobs_is_empty_literal pending_jobs then Except.ok (some acc)
      else
        match wait_for_round 0 pending_jobs acc with
        | Except.error e => Except.error e
        | Except.ok (pending', acc') => wait_on_completion fuel' pending' acc'

/-- The TypeError raised by subscripting a Python `str` with a string key
(`nmpi_job['code']` when `nmpi_job` is in fact the working-directory
path, see `get_code` and the swapped call in `JobRunner.run`). -/
def str_index_type_error : List Char :=
  pystr "TypeError: string indices must be integers"

/-- Lines 450-464, `JobRunner.submit_jobs(pending_jobs)`.  For each job,
`self.run(nmpi_job)` first builds the job description inside a
try/except (failures become an error message, upon which the job is
killed and the loop continues — `build_fails` is the oracle for that
external step); when the description build succeeds, `run` next calls
`get_code(nmpi_job, job_desc.working_directory, ...)` whose arguments are
swapped relative to the signature `get_code(working_directory, nmpi_job,
script_name)`, so `nmpi_job['code']` subscripts a string and the
TypeError propagates uncaught out of `run` and `submit_jobs`. -/
def submit_jobs (build_fails : QJob → Bool) (pending_jobs : List QJob) :
    Except (List Char) (List (QJob × SagaRun)) :=
  match pending_jobs with
  | [] => Except.ok []
  | nmpi_job :: rest =>
      if build_fails nmpi_job then submit_jobs build_fails rest
      else Except.error str_index_type_error

/-- Lines 494-502, `JobRunner.next()`: retrieve, submit, wait, then
return the submitted list.  `Except.ok none` marks the case where
`wait_on_completion` was still spinning when the fuel ran out, i.e. no
value was returned. -/
def runner_next (fetches : List (Option QJob)) (build_fails : QJob → Bool) (fuel : Nat) :
    Except (List Char) (Option (List (QJob × SagaRun))) :=
  let pending_nmpi_jobs := retrieve_pending_jobs fetches
  match submit_jobs build_fails pending_nmpi_jobs with
  | Except.error e => Except.error e
  | Except.ok pending_saga_jobs =>
      match wait_on_completion fuel pending_saga_jobs [] with
      | Except.error e => Except.error e
      | Except.ok none => Except.ok none
      | Except.ok (some _) => Except.ok (some pending_saga_jobs)

/-- Line 638: the data-item URL '{}/{}/{}'.format(DATA_SERVER,
basename(working_directory), new_file). -/
def mkUrl (data_server workdir_basename new_file : List Char) : List Char :=
  data_server ++ pystr "/" ++ workdir_basename ++ pystr "/" ++ new_file

/-- Lines 636-654, the artifact-registration phase of
`JobRunner._handle_output_data` (its `new_files` argument is the value
computed by `_find_new_data_files` at line 612, modelled separately):
for each new file POST a data item (`create_data_item`, a remote call
modelled as an oracle from the URL to either the resource URI or an
exception message) and append the returned URI to
`nmpi_job['output_data']`; the first failure returns an error message at
once, keeping the appends made so far.  Afterwards PUT the job
(`update_exc` is the oracle for that remote call: `none` for success,
`some e` for an exception).  The result is the job record as mutated so
far together with the returned value (`none` for Python `None`). -/
def post_output_data (create_data_item : List Char → Except (List Char) (List Char))
    (update_exc : Option (List Char)) (data_server workdir_basename : List Char)
    (new_files : List (List Char)) (nmpi_job : QJob) : QJob × Option (List Char) :=
  match new_files with
  | [] =>
      match update_exc with
      | none => (nmpi_job, none)
      | some e =>
          (nmpi_job,
           some (pystr "Failed to update the job reflecting the produced output data: " ++ e))
  | new_file :: rest =>
      let url := mkUrl data_server workdir_basename new_file
      match create_data_item url with
      | Except.ok resource_uri =>
          post_output_data create_data_item update_exc data_server workdir_basename rest
            { nmpi_job with output_data := nmpi_job.output_data ++ [resource_uri] }
      | Except.error e =>
          (nmpi_job,
           some (pystr "Failed to create data item remotely at " ++ url ++ pystr ": " ++ e))

/-- Python `s.rfind(c)` on the `List Char` model: the index of the last
occurrence of `c`, or `-1` when absent. -/
def py_rfind (cs : List Char) (c : Char) : Int :=
  match cs with
  | [] => -1
  | x :: xs =>
      let r := py_rfind xs c
      if r ≥ 0 then r + 1
      else if x = c then 0 else -1

/-- Python `s.find(c)`: the index of the first occurrence of `c`, or
`-1` when absent. -/
def py_find (cs : List Char) (c : Char) : Int :=
  match cs with
  | [] => -1
  | x :: xs =>
      if x = c then 0
      else
        let r := py_find xs c
        if r ≥ 0 then r + 1 else -1

/-- The extension component of `os.path.splitext` (CPython posixpath):
the suffix from the last dot, provided some non-dot character occurs
between the last path separator and that dot (so dotfiles such as
`.pyc` have no extension). -/
def splitext_ext (p : List Char) : List Char :=
  let sepIndex := py_rfind p '/'
  let dotIndex := py_rfind p '.'
  if sepIndex < dotIndex ∧
      ((p.drop (sepIndex + 1).toNat).take (dotIndex - sepIndex - 1).toNat).any
        (fun c => c != '.') then
    p.drop dotIndex.toNat
  else []

/-- `os.path.join` for one relative component, as used on the walk
results: joining from the empty prefix yields the component itself. -/
def pjoin (a b : List Char) : List Char :=
  if a = [] then b else a ++ pystr "/" ++ b

/-- Line 251: the default ignored version-control/metadata directories of
`_find_new_data_files`. -/
def ignoredirs : List (List Char) :=
  [pystr ".smt", pystr ".hg", pystr ".svn", pystr ".git", pystr ".bzr"]

/-- Line 252: the default ignored extensions of `_find_new_data_files`. -/
def ignore_extensions : List (List Char) := [pystr ".pyc"]

/-- A directory tree: a file with a name and a last-modified time
(`os.stat(...).st_mtime`), or a directory with a name and children. -/
inductive Entry where
  | file : List Char → Nat → Entry
  | dir : List Char → List Entry → Entry

/-- The `files` component of an `os.walk` tuple for a directory with the
given children: names (with mtimes) of its file children, in order. -/
def filesOf : List Entry → List (List Char × Nat)
  | [] => []
  | Entry.file n m :: rest => (n, m) :: filesOf rest
  | Entry.dir _ _ :: rest => filesOf rest

/-- The `dirs` component of an `os.walk` tuple: the directory children
(name and their own children), in order. -/
def dirsOf : List Entry → List (List Char × List Entry)
  | [] => []
  | Entry.file _ _ :: rest => dirsOf rest
  | Entry.dir n cs :: rest => (n, cs) :: dirsOf rest

/-- Python `dirs.remove(name)`: deletes the first entry with that name
(and is the identity when the name is absent, matching the
`if igdir in dirs` guard). -/
def remove_first_dir (name : List Char) :
    List (List Char × List Entry) → List (List Char × List Entry)
  | [] => []
  | d :: rest => if d.1 = name then rest else d :: remove_first_dir name rest

/-- Lines 260-262: `for igdir in ignoredirs: if igdir in dirs:
dirs.remove(igdir)` — in-place pruning of the walk's `dirs` list, which
stops `os.walk` from descending into the removed directories. -/
def prune_dirs (igs : List (List Char)) (dirs : List (List Char × List Entry)) :
    List (List Char × List Entry) :=
  igs.foldl (fun ds igdir => remove_first_dir igdir ds) dirs

/-- Membership in `remove_first_dir` implies membership in the original
list (used for the walk's termination argument). -/
theorem mem_remove_first_dir {name : List Char} {d : List Char × List Entry} :
    ∀ {ds : List (List Char × List Entry)}, d ∈ remove_first_dir name ds → d ∈ ds := by
  intro ds
  induction ds with
  | nil => intro h; exact absurd h (List.not_mem_nil d)
  | cons x rest ih =>
      intro h
      by_cases hx : x.1 = name
      · simp only [remove_first_dir, if_pos hx] at h
        exact List.mem_cons_of_mem x h
      · simp only [remove_first_dir, if_neg hx, List.mem_cons] at h
        rcases h with h | h
        · exact h ▸ List.mem_cons_self x rest
        · exact List.mem_cons_of_mem x (ih h)

/-- Membership in the pruned `dirs` list implies membership in the
original one. -/
theorem mem_prune_dirs {d : List Char × List Entry} :
    ∀ {igs : List (List Char)} {ds : List (List Char × List Entry)},
      d ∈ prune_dirs igs ds → d ∈ ds := by
  intro igs
  induction igs with
  | nil => intro ds h; exact h
  | cons ig rest ih =>
      intro ds h
      exact mem_remove_first_dir (ih h)

/-- A directory child occupies less size than the whole children list
(termination measure for the walk). -/
theorem sizeOf_of_mem_dirsOf {d : List Char × List Entry} :
    ∀ {children : List Entry}, d ∈ dirsOf children → sizeOf d.2 < sizeOf children := by
  intro children
  induction children with
  | nil => intro h; exact absurd h (List.not_mem_nil d)
  | cons e rest ih =>
      intro h
      cases e with
      | file n m =>
          simp only [dirsOf] at h
          have := ih h
          simp only [List.cons.sizeOf_spec]
          omega
      | dir n cs =>
          simp only [dirsOf, List.mem_cons] at h
          rcases h with h | h
          · subst h
            simp only [List.cons.sizeOf_spec, Entry.dir.sizeOf_spec]
            omega
          · have := ih h
            simp only [List.cons.sizeOf_spec]
            omega

/-- Lines 250-270, `_find_new_data_files(root, timestamp)`, recursing as
`os.walk` does: for each visited directory, first prune the ignored
directory names from `dirs`, then select the files whose extension is
not ignored and whose mtime is `>= timestamp`, recording them under the
relative path `root[length_root:]` joined with the file name (`rel` is
that relative prefix, empty at the walk's root); then descend into the
surviving subdirectories in order. -/
def walk_new_files (timestamp : Nat) (rel : List Char) (children : List Entry) :
    List (List Char) :=
  (((filesOf children).filter (fun f =>
      !(ignore_extensions.contains (splitext_ext f.1)) && decide (f.2 ≥ timestamp))).map
      (fun f => pjoin rel f.1)) ++
    ((prune_dirs ignoredirs (dirsOf children)).attach.map
      (fun d => walk_new_files timestamp (pjoin rel d.1.1) d.1.2)).flatten
termination_by sizeOf children
decreasing_by
  exact sizeOf_of_mem_dirsOf (mem_prune_dirs d.2)

/-- `_find_new_data_files` on the root directory: the walk starts with
the empty relative prefix. -/
def find_new_data_files (timestamp : Nat) (root_children : List Entry) :
    List (List Char) :=
  walk_new_files timestamp [] root_children

/-- A file of the tree together with its relative path, bare name,
mtime, and the names of the directories above it (relative to the
root). -/
structure FileInfo where
  relpath : List Char
  fname : List Char
  mtime : Nat
  above : List (List Char)
  deriving DecidableEq, Repr

mutual
/-- All files under one entry, with ancestry recorded; no pruning. -/
def entry_files (rel : List Char) (above : List (List Char)) : Entry → List FileInfo
  | Entry.file n m => [⟨pjoin rel n, n, m, above⟩]
  | Entry.dir n cs => forest_files (pjoin rel n) (above ++ [n]) cs

/-- All files under a list of entries, in order; no pruning. -/
def forest_files (rel : List Char) (above : List (List Char)) : List Entry → List FileInfo
  | [] => []
  | e :: es => entry_files rel above e ++ forest_files rel above es
end

/-- The claim's selection criterion on a file: last-modified at or after
the reference timestamp (inclusive), extension not ignored, and no
enclosing directory ignored. -/
def harv_pred (timestamp : Nat) (fi : FileInfo) : Bool :=
  decide (fi.mtime ≥ timestamp) &&
  !(ignore_extensions.contains (splitext_ext fi.fname)) &&
  fi.above.all (fun d => !(ignoredirs.contains d))

/-- The harvested set as the specification words it: the relative paths
of exactly those files whose mtime is at or after the reference
timestamp, whose extension is not ignored, and that lie outside the
ignored directories. -/
def harvested_spec (timestamp : Nat) (root_children : List Entry) : List (List Char) :=
  ((forest_files [] [] root_children).filter (harv_pred timestamp)).map
    (fun fi => fi.relpath)

/-- Boolean duplicate-freedom of a list of names. -/
def nodupB : List (List Char) → Bool
  | [] => true
  | x :: xs => !(xs.contains x) && nodupB xs

/-- The names of the directory children. -/
def dir_names (cs : List Entry) : List (List Char) :=
  (dirsOf cs).map (fun d => d.1)

mutual
/-- Well-formedness of a tree entry as a filesystem object: sibling
directory names are distinct at every level (true of any real directory
tree, where names are unique). -/
def entry_wf : Entry → Bool
  | Entry.file _ _ => true
  | Entry.dir _ cs => nodupB (dir_names cs) && entries_wf cs

/-- Well-formedness of every entry of a list. -/
def entries_wf : List Entry → Bool
  | [] => true
  | e :: es => entry_wf e && entries_wf es
end

/-- Well-formedness of a directory's children: distinct sibling
directory names here and in every subdirectory. -/
def forest_wf (cs : List Entry) : Bool :=
  nodupB (dir_names cs) && entries_wf cs

/-- A Python value as it flows through `get_code`: either a `str` or the
nmpi job dict.  `JobRunner.run` (line 518) passes the job dict where
`get_code` expects the working-directory string and vice versa, so the
dynamic type of each argument matters. -/
inductive PyVal where
  | s : List Char → PyVal
  | jobdict : QJob → PyVal
  deriving DecidableEq, Repr

/-- Python `v['code']`: a KeyError-free field access on the job dict,
and a TypeError when `v` is a `str` (string indices must be integers). -/
def py_getitem_code (v : PyVal) : Except (List Char) PyVal :=
  match v with
  | PyVal.s _ => Except.error str_index_type_error
  | PyVal.jobdict j => Except.ok (PyVal.s j.code)

/-- Python `str(v)` for the values reaching it here; only `str` inputs
occur (the result of `py_getitem_code` on a job dict). -/
def py_to_str (v : PyVal) : List Char :=
  match v with
  | PyVal.s cs => cs
  | PyVal.jobdict _ => pystr "<job dict>"

/-- A `PyVal` used where a filesystem path string is required; a
non-string raises. -/
def py_as_path (v : PyVal) : Except (List Char) (List Char) :=
  match v with
  | PyVal.s cs => Except.ok cs
  | PyVal.jobdict _ => Except.error (pystr "TypeError: argument must be a string")

/-- The scheme/path fields of a parsed URL as consumed by `get_code`. -/
structure UrlParts where
  scheme : List Char
  path : List Char
  deriving DecidableEq, Repr

/-- Characters admissible in a URL scheme. -/
def scheme_char (c : Char) : Bool :=
  c.isAlphanum || c = '+' || c = '-' || c = '.'

/-- Modelled from the spec: the standard library `urlparse` (an external
import), restricted to the `scheme` and `path` fields the source
consults — a leading run of scheme characters before a colon is the
(lowercased) scheme; a `//netloc` component and any query or fragment
suffix are excluded from the path. -/
def urlparse (url : List Char) : UrlParts :=
  let i := py_find url ':'
  let sr :=
    if 0 < i ∧ (url.take i.toNat).all scheme_char then
      ((url.take i.toNat).map Char.toLower, url.drop (i.toNat + 1))
    else ([], url)
  let rest := sr.2
  let rest :=
    if rest.take 2 = pystr "//" then
      (rest.drop 2).dropWhile (fun c => !(c = '/' || c = '?' || c = '#'))
    else rest
  let rest := rest.takeWhile (fun c => c != '#')
  let rest := rest.takeWhile (fun c => c != '?')
  ⟨sr.1, rest⟩

/-- Python `s.endswith(suffix)`. -/
def endswith (cs suffix : List Char) : Bool :=
  suffix.isSuffixOf cs

/-- `os.path.basename`: the part after the last separator. -/
def basename (cs : List Char) : List Char :=
  cs.drop ((py_rfind cs '/') + 1).toNat

/-- A filesystem or subprocess effect performed by `get_code`. -/
inductive FsAction where
  | mkdir : List Char → FsAction
  | download : List Char → List Char → FsAction
  | untar : List Char → FsAction
  | unzip : List Char → FsAction
  | clone : List Char → FsAction
  | write : List Char → List Char → FsAction
  deriving DecidableEq, Repr

/-- Oracle for the external steps of `get_code`: the exit statuses of
the `curl`, `tar`, `unzip` and `git clone` subprocesses (`true` means a
nonzero, failing status) and an optional exception raised inside the
script-writing `try` block. -/
structure GetCodeEnv where
  curl_fails : Bool
  tar_fails : Bool
  unzip_fails : Bool
  git_fails : Bool
  write_exc : Option (List Char)
  deriving DecidableEq, Repr

/-- Lines 296-351, `get_code(working_directory, nmpi_job, script_name)`.
The first statement evaluates `urlparse(str(nmpi_job['code']))`, so a
`str` passed in the `nmpi_job` position raises TypeError at once.  An
archive URL is downloaded and unpacked (with `assert False,
"unreachable"` modelled as an AssertionError on the impossible third
ending); an http/https/ssh URL is cloned, falling through to the
literal branch when the clone exits nonzero; otherwise the code text is
written verbatim to `script_name` (a path relative to the process CWD,
not joined to the working directory), with any exception inside that
`try` block converted to an error-message return. -/
def get_code (env : GetCodeEnv) (working_directory nmpi_job : PyVal)
    (script_name : List Char) :
    Except (List Char) (Option (List Char) × List FsAction) := do
  let codeV ← py_getitem_code nmpi_job
  let code := py_to_str codeV
  let url_candidate := urlparse code
  let literal : Except (List Char) (Option (List Char) × List FsAction) :=
    match working_directory, env.write_exc with
    | PyVal.s wd, none =>
        Except.ok (none, [FsAction.mkdir wd, FsAction.write script_name code])
    | PyVal.s _, some e =>
        Except.ok (some (pystr "Exception occured while writing script: " ++ e), [])
    | PyVal.jobdict _, _ =>
        Except.ok (some (pystr "Exception occured while writing script: TypeError"), [])
  if url_candidate.scheme ≠ [] ∧
      (endswith url_candidate.path (pystr ".tar.gz") ∨
       endswith url_candidate.path (pystr ".zip") ∨
       endswith url_candidate.path (pystr ".tgz")) then
    let wd ← py_as_path working_directory
    let target := pjoin wd (basename url_candidate.path)
    if env.curl_fails then
      Except.ok (some (pystr "Unable to retrieve code from url: " ++ code),
                 [FsAction.mkdir wd, FsAction.download code target])
    else if endswith url_candidate.path (pystr ".tar.gz") ∨
            endswith url_candidate.path (pystr ".tgz") then
      if env.tar_fails then
        Except.ok (some (pystr "Unable extract tar file, malformed archive?"),
                   [FsAction.mkdir wd, FsAction.download code target, FsAction.untar target])
      else
        Except.ok (none,
                   [FsAction.mkdir wd, FsAction.download code target, FsAction.untar target])
    else if endswith url_candidate.path (pystr ".zip") then
      if env.unzip_fails then
        Except.ok (some (pystr "Unable expand zip file, malformed archive?"),
                   [FsAction.mkdir wd, FsAction.download code target, FsAction.unzip target])
      else
        Except.ok (none,
                   [FsAction.mkdir wd, FsAction.download code target, FsAction.unzip target])
    else
      Except.error (pystr "AssertionError: unreachable")
  else if url_candidate.scheme = pystr "http" ∨ url_candidate.scheme = pystr "https" ∨
          url_candidate.scheme = pystr "ssh" then
    let _ ← py_as_path working_directory
    if env.git_fails then literal
    else Except.ok (none, [FsAction.clone code])
  else literal

/-- The log block appended by `job_pending` (the Job ID line and the
timestamped pending line). -/
def pending_log_block (clock : Clock) (saga_job : SagaRun) : List Char :=
  pystr "Job ID: " ++ saga_job.sid ++ pystr "\n" ++ clock.fst ++ pystr "    pending\n"

/-- The log block appended by `job_running`. -/
def running_log_block (clock : Clock) : List Char :=
  clock.fst ++ pystr "    running\n"

/-- The log block appended by `job_done`: the timestamped finished line
followed by the independently truncated stdout and stderr, separated by
blank lines. -/
def done_log_block (clock : Clock) (saga_job : SagaRun) : List Char :=
  clock.snd ++ pystr "    finished\n" ++ pystr "\n\n" ++
    truncate_string saga_job.stdout MAX_LOG_SIZE ++ pystr "\n\n" ++
    truncate_string saga_job.stderr MAX_LOG_SIZE

/-- The log block appended by `job_failed`. -/
def failed_log_block (clock : Clock) (saga_job : SagaRun) : List Char :=
  clock.fst ++ pystr "    failed\n\n" ++
    truncate_string saga_job.stdout MAX_LOG_SIZE ++ pystr "\n\nstdout\n------\n\n" ++
    truncate_string saga_job.stderr MAX_LOG_SIZE

/-- A concrete job record used to instantiate the theorems below. -/
def sample_job (st : JStatus) : QJob :=
  { id := 7, status := st, log := pystr "L", code := pystr "print(1)",
    output_data := [], timestamp_completion := none, resource_usage := none,
    provenance := none }

/-- A concrete SAGA handle used to instantiate the theorems below. -/
def sample_saga (st : SagaState) : SagaRun :=
  { sid := pystr "42", state := st, harvest_err := false,
    stdout := pystr "out", stderr := pystr "err" }

/-- A concrete directory tree: files modified before and at/after the
reference timestamp 5, an ignored `.git` subdirectory, an ignored
`.pyc` file, and a surviving subdirectory. -/
def sample_tree : List Entry :=
  [Entry.file (pystr "a.txt") 5,
   Entry.file (pystr "old.txt") 1,
   Entry.file (pystr "c.pyc") 9,
   Entry.dir (pystr ".git") [Entry.file (pystr "g.txt") 9],
   Entry.dir (pystr "sub") [Entry.file (pystr "b.txt") 7]]

/-- A concrete `create_data_item` oracle: succeeds on one URL, fails on
every other. -/
def sample_create (url : List Char) : Except (List Char) (List Char) :=
  if url = mkUrl (pystr "http://data") (pystr "job_7") (pystr "a.dat") then
    Except.ok (pystr "uri-a")
  else Except.error (pystr "boom")

/-- The loop of `retrieve_pending_jobs` never changes its accumulator:
no branch of the body appends the fetched job. -/
theorem retrieve_pending_jobs_loop_const (fetches : List (Option QJob)) :
    ∀ pending_jobs, retrieve_pending_jobs_loop fetches pending_jobs = pending_jobs := by
  induction fetches with
  | nil => intro pending_jobs; rfl
  | cons f rest ih =>
      intro pending_jobs
      cases f with
      | none => rfl
      | some j =>
          simp only [retrieve_pending_jobs_loop, ih, ite_self]

/-- C1.  `retrieve_pending_jobs` (lines 439-448) never accumulates any
fetched job: whatever the queue returns on the successive `get_next_job`
calls, the returned list is empty — in particular, when the queue yields
a job before yielding none, that job is not contained in the result,
contradicting the claimed contract. -/
theorem retrieve_pending_jobs_always_empty (fetches : List (Option QJob)) :
    retrieve_pending_jobs fetches = [] :=
  retrieve_pending_jobs_loop_const fetches []

/-- One round of the wait-loop body over an empty in-flight list does
nothing. -/
theorem wait_for_round_nil (acc : List WaitAction) :
    wait_for_round 0 [] acc = Except.ok ([], acc) := by
  rw [wait_for_round]
  rfl

/-- `wait_on_completion` on an empty in-flight list spins until the fuel
is exhausted: the break guard is the always-false identity test
`pending_jobs is []`. -/
theorem wait_on_completion_empty (fuel : Nat) :
    ∀ acc, wait_on_completion fuel [] acc = Except.ok none := by
  induction fuel with
  | zero => intro acc; rfl
  | succ fuel' ih =>
      intro acc
      simp only [wait_on_completion, pending_jobs_is_empty_literal, if_false,
        wait_for_round_nil]
      exact ih acc

/-- `wait_on_completion` never takes its break: every run either runs out
of fuel with the loop still spinning or propagates an exception from the
body. -/
theorem wait_on_completion_no_normal_return (fuel : Nat) :
    ∀ pending_jobs acc,
      wait_on_completion fuel pending_jobs acc = Except.ok none ∨
        ∃ e, wait_on_completion fuel pending_jobs acc = Except.error e := by
  induction fuel with
  | zero => intro pending_jobs acc; exact Or.inl rfl
  | succ fuel' ih =>
      intro pending_jobs acc
      simp only [wait_on_completion, pending_jobs_is_empty_literal, if_false]
      cases h : wait_for_round 0 pending_jobs acc with
      | error e => exact Or.inr ⟨e, rfl⟩
      | ok pa => exact ih pa.1 pa.2

/-- C2.  `wait_on_completion` (lines 466-492) never exits its polling
loop, not even when the in-flight set is (or becomes) empty: the only
break is guarded by `pending_jobs is []`, a Python identity comparison
with a freshly created list object, which is always false.  In the
fuel-indexed model the loop therefore either exhausts any amount of fuel
(`Except.ok none`) or dies on an exception from the body; it never
returns (`Except.ok (some _)`), contradicting the claimed termination. -/
theorem wait_on_completion_never_returns (fuel : Nat) (pending_jobs : List (QJob × SagaRun))
    (acc : List WaitAction) :
    wait_on_completion fuel pending_jobs acc = Except.ok none ∨
      ∃ e, wait_on_completion fuel pending_jobs acc = Except.error e :=
  wait_on_completion_no_normal_return fuel pending_jobs acc

/-- C3.  `JobRunner.next` (lines 494-502) never returns the submitted
jobs: `retrieve_pending_jobs` always yields the empty list, so no job is
ever submitted, and `wait_on_completion []` spins forever (its break
guard is always false), so control never reaches the `return` — in the
fuel-indexed model, `runner_next` evaluates to `Except.ok none` (fuel
exhausted inside `wait_on_completion`) for every queue content, every
description-build oracle and every amount of fuel. -/
theorem runner_next_never_completes (fetches : List (Option QJob))
    (build_fails : QJob → Bool) (fuel : Nat) :
    runner_next fetches build_fails fuel = Except.ok none := by
  simp only [runner_next, retrieve_pending_jobs, retrieve_pending_jobs_loop_const,
    submit_jobs, wait_on_completion_empty]

/-- Python's floor division of a negated natural by 2: the result is the
negated ceiling of the half. -/
theorem fdiv_neg_coe_two (M : Nat) :
    Int.fdiv (-(M : Int)) 2 = -(((M + 1) / 2 : Nat) : Int) := by
  cases M with
  | zero => rfl
  | succ k =>
      have h1 : -(((k + 1 : Nat) : Int)) = Int.negSucc k := by
        rw [Int.negSucc_eq]
        push_cast
        ring
      rw [h1]
      show Int.negSucc (k / 2) = -(((k + 1 + 1) / 2 : Nat) : Int)
      rw [Int.negSucc_eq]
      have h2 : (k + 1 + 1) / 2 = k / 2 + 1 := by omega
      rw [h2]
      push_cast
      ring

/-- C5 (counterexample).  At maximum size `M = 5` and input `"abcdef"`
the tail kept by `truncate_string` is `"def"` — three characters, not the
claimed `M/2 = 2` (Python's `stream[-max_length//2:]` keeps the last
ceiling of `M/2` characters) — and at `M = 0` the negated slice start is
`-0 = 0`, so the whole string is kept after the marker and the output is
longer than `M` plus the marker's length. -/
theorem truncate_string_claim_counterexample :
    truncate_string (pystr "abcdef") 5 = pystr "ab" ++ trunc_marker ++ pystr "def" ∧
    (pystr "def").length = 3 ∧ 5 / 2 = 2 ∧
    (truncate_string (pystr "a") 0).length = trunc_marker.length + 1 := by
  decide

/-- C5 (amended).  For every maximum size `M ≥ 1`: a string longer than
`M` is truncated to its first `⌊M/2⌋` characters, the fixed marker, and
its last `⌈M/2⌉` characters; a string of length at most `M` is returned
unchanged; and every truncated section's length is at most `M` plus the
marker's length.  (At `M = 0` the tail slice degenerates to the whole
string and the bound can be exceeded.) -/
theorem truncate_string_amended (s : List Char) (M : Nat) (hM : 1 ≤ M) :
    (s.length > M →
      truncate_string s M =
        s.take (M / 2) ++ trunc_marker ++ s.drop (s.length - (M + 1) / 2)) ∧
    (s.length ≤ M → truncate_string s M = s) ∧
    (truncate_string s M).length ≤ M + trunc_marker.length := by
  have hceil : 1 ≤ (M + 1) / 2 := by omega
  have hhalf : (M + 1) / 2 ≤ M := by omega
  by_cases hlen : s.length > M
  · have hform : truncate_string s M =
        s.take (M / 2) ++ trunc_marker ++ s.drop (s.length - (M + 1) / 2) := by
      rw [truncate_string, if_pos hlen, pySliceFrom, fdiv_neg_coe_two]
      rw [if_pos (by omega : -(((M + 1) / 2 : Nat) : Int) < 0)]
      congr 1
      congr 1
      omega
    refine ⟨fun _ => hform, fun h => absurd h (by omega), ?_⟩
    rw [hform]
    simp only [List.length_append, List.length_take, List.length_drop]
    omega
  · have hform : truncate_string s M = s := by
      rw [truncate_string, if_neg hlen]
    exact ⟨fun h => absurd h hlen, fun _ => hform, by rw [hform]; omega⟩

/-- C5 (witness): the amended statement instantiated at `M = 4` and
`"abcdef"`: the output keeps the first two and last two characters
around the marker. -/
theorem truncate_string_amended_witness :
    1 ≤ 4 ∧ (pystr "abcdef").length > 4 ∧
      truncate_string (pystr "abcdef") 4 =
        (pystr "abcdef").take (4 / 2) ++ trunc_marker ++
          (pystr "abcdef").drop ((pystr "abcdef").length - (4 + 1) / 2) :=
  ⟨by decide, by decide,
   (truncate_string_amended (pystr "abcdef") 4 (by decide)).1 (by decide)⟩

/-- C6.  `HardwareClient.kill_job` (lines 204-220): a job whose status is
outside {submitted, running} — i.e. finished or error — makes the call
raise before anything is mutated or PUT; a job inside that set is set to
status `error` and the remote log receives the previous log extended
with the operator-facing line and the supplied message. -/
theorem kill_job_precondition (job : QJob) (m : List Char) :
    ((job.status = JStatus.finished ∨ job.status = JStatus.error) →
      kill_job job m =
        Except.error (pystr "You cannot kill a job with status " ++ statusStr job.status)) ∧
    ((job.status = JStatus.submitted ∨ job.status = JStatus.running) →
      kill_job job m =
        Except.ok ({ job with status := JStatus.error, log := [] },
          [RemotePut.putJob { job with status := JStatus.error, log := [] },
           RemotePut.putLog job.id
             (job.log ++ pystr "Internal error. Please resubmit the job\n" ++ m)])) := by
  constructor
  · intro h
    rcases h with h | h <;> rw [kill_job, if_pos (by rw [h]; exact ⟨by decide, by decide⟩)]
  · intro h
    rcases h with h | h <;>
      rw [kill_job, if_neg (by rw [h]; intro hc; rcases hc with ⟨h1, h2⟩; simp at h1 h2)]

/-- C6 (witness): `kill_job` at a concrete finished job (raises, nothing
performed) and at a concrete submitted job (status set to error, log
pushed with the operator message and the supplied message). -/
theorem kill_job_precondition_witness :
    kill_job (sample_job JStatus.finished) (pystr "m") =
      Except.error (pystr "You cannot kill a job with status " ++
        statusStr (sample_job JStatus.finished).status) ∧
    kill_job (sample_job JStatus.submitted) (pystr "m") =
      Except.ok ({ sample_job JStatus.submitted with status := JStatus.error, log := [] },
        [RemotePut.putJob { sample_job JStatus.submitted with
            status := JStatus.error, log := [] },
         RemotePut.putLog (sample_job JStatus.submitted).id
           ((sample_job JStatus.submitted).log ++
             pystr "Internal error. Please resubmit the job\n" ++ pystr "m")]) :=
  ⟨(kill_job_precondition (sample_job JStatus.finished) (pystr "m")).1 (Or.inl rfl),
   (kill_job_precondition (sample_job JStatus.submitted) (pystr "m")).2 (Or.inl rfl)⟩

/-- C7.  The status functions are pure and idempotent up to timestamps:
for each mapped backend state (pending, running, done, failed), a second
application leaves the status at the value the first application set,
and each application appends exactly the state's log block — the same
function of the clock both times — so two successive applications differ
from one only in the timestamp fields of the appended lines. -/
theorem status_functions_idempotent (j : QJob) (s : SagaRun) (c1 c2 : Clock) :
    ((job_pending c2 (job_pending c1 j s) s).status = (job_pending c1 j s).status ∧
     (job_pending c1 j s).log = j.log ++ pending_log_block c1 s ∧
     (job_pending c2 (job_pending c1 j s) s).log =
       (job_pending c1 j s).log ++ pending_log_block c2 s) ∧
    ((job_running c2 (job_running c1 j s) s).status = (job_running c1 j s).status ∧
     (job_running c1 j s).log = j.log ++ running_log_block c1 ∧
     (job_running c2 (job_running c1 j s) s).log =
       (job_running c1 j s).log ++ running_log_block c2) ∧
    ((job_done c2 (job_done c1 j s) s).status = (job_done c1 j s).status ∧
     (job_done c1 j s).log = j.log ++ done_log_block c1 s ∧
     (job_done c2 (job_done c1 j s) s).log =
       (job_done c1 j s).log ++ done_log_block c2 s) ∧
    ((job_failed c2 (job_failed c1 j s) s).status = (job_failed c1 j s).status ∧
     (job_failed c1 j s).log = j.log ++ failed_log_block c1 s ∧
     (job_failed c2 (job_failed c1 j s) s).log =
       (job_failed c1 j s).log ++ failed_log_block c2 s) := by
  refine ⟨⟨rfl, ?_, ?_⟩, ⟨rfl, ?_, ?_⟩, ⟨rfl, ?_, ?_⟩, ⟨rfl, ?_, ?_⟩⟩ <;>
    simp [job_pending, job_running, job_done, job_failed, read_output,
      pending_log_block, running_log_block, done_log_block, failed_log_block,
      List.append_assoc]

/-- C8.  `JobRunner.run` (line 518) calls
`get_code(nmpi_job, job_desc.working_directory, ...)` although the
signature is `get_code(working_directory, nmpi_job, script_name)`: the
job dict arrives in the working-directory position and the
working-directory string in the job position, so the very first
statement, `urlparse(str(nmpi_job['code']))`, subscripts a string with
`'code'` and raises TypeError — for every oracle environment, every job
(whatever its code field, literal or not), every working directory and
every script name, nothing is written and no error value is returned:
the exception propagates. -/
theorem get_code_swapped_arguments_type_error (env : GetCodeEnv) (j : QJob)
    (wd script_name : List Char) :
    get_code env (PyVal.jobdict j) (PyVal.s wd) script_name =
      Except.error str_index_type_error := by
  rfl

/-- C9.  The `default_job_states` dispatch (lines 101-106) is total over
exactly {pending, running, done, failed}, each state mapped to its
status function, and has no entry for the canceled state, so
`_update_status` (lines 592-599) raises KeyError there instead of
producing a job record; moreover the wait loop's canceled branch (line
486) raises AttributeError while evaluating its own guard
`saga_job.job.CANCELED`, before any dispatch could occur. -/
theorem canceled_state_unmapped :
    lookupState default_job_states SagaState.pending = some job_pending ∧
    lookupState default_job_states SagaState.running = some job_running ∧
    lookupState default_job_states SagaState.done = some job_done ∧
    lookupState default_job_states SagaState.failed = some job_failed ∧
    lookupState default_job_states SagaState.canceled = none ∧
    (∀ (clock : Clock) (nmpi_job : QJob) (saga_job : SagaRun),
      saga_job.state = SagaState.canceled →
        update_status clock default_job_states nmpi_job saga_job =
          Except.error (pystr "KeyError: " ++ sagaStateStr SagaState.canceled)) ∧
    (∀ (i : Nat) (lst : List (QJob × SagaRun)) (acc : List WaitAction)
        (h : i < lst.length),
      (lst.get ⟨i, h⟩).2.state = SagaState.canceled →
        wait_for_round i lst acc = Except.error attr_error_msg) := by
  refine ⟨rfl, rfl, rfl, rfl, rfl, ?_, ?_⟩
  · intro clock nmpi_job saga_job h
    rw [update_status, h]
    rfl
  · intro i lst acc h hc
    rw [wait_for_round, dif_pos h]
    simp only [hc]

/-- C9 (witness): the KeyError and the AttributeError at a concrete
canceled job. -/
theorem canceled_state_unmapped_witness :
    update_status (pystr "t1", pystr "t2") default_job_states
        (sample_job JStatus.running) (sample_saga SagaState.canceled) =
      Except.error (pystr "KeyError: " ++ sagaStateStr SagaState.canceled) ∧
    wait_for_round 0 [(sample_job JStatus.running, sample_saga SagaState.canceled)] [] =
      Except.error attr_error_msg :=
  ⟨canceled_state_unmapped.2.2.2.2.2.1 (pystr "t1", pystr "t2")
     (sample_job JStatus.running) (sample_saga SagaState.canceled) rfl,
   canceled_state_unmapped.2.2.2.2.2.2 0
     [(sample_job JStatus.running, sample_saga SagaState.canceled)] []
     (by decide) rfl⟩

/-- C10.  The artifact-registration loop of `_handle_output_data` (lines
636-645) is not atomic: when `create_data_item` succeeds for the first
`k` files (returning the listed URIs) and fails on file `k+1`, the call
returns an error message while `output_data` keeps exactly the `k`
references appended before the failure — no rollback. -/
theorem post_output_data_partial
    (create_data_item : List Char → Except (List Char) (List Char))
    (update_exc : Option (List Char)) (ds wb : List Char)
    (files : List (List Char)) (job : QJob) (k : Nat)
    (uris : List (List Char)) (e : List Char)
    (hk : k < files.length)
    (hok : List.Forall₂
      (fun f u => create_data_item (mkUrl ds wb f) = Except.ok u) (files.take k) uris)
    (hfail : create_data_item (mkUrl ds wb (files.get ⟨k, hk⟩)) = Except.error e) :
    post_output_data create_data_item update_exc ds wb files job =
      ({ job with output_data := job.output_data ++ uris },
       some (pystr "Failed to create data item remotely at " ++
         mkUrl ds wb (files.get ⟨k, hk⟩) ++ pystr ": " ++ e)) := by
  induction k generalizing files job uris with
  | zero =>
      cases files with
      | nil => exact absurd hk (by simp)
      | cons f rest =>
          cases hok
          have h0 : (f :: rest).get ⟨0, hk⟩ = f := rfl
          rw [h0] at hfail ⊢
          simp [post_output_data, hfail]
  | succ k ih =>
      cases files with
      | nil => exact absurd hk (by simp)
      | cons f rest =>
          rw [List.take_succ_cons] at hok
          cases hok with
          | cons hf hrest =>
              rename_i u us
              have hk' : k < rest.length := Nat.lt_of_succ_lt_succ hk
              have hfail' : create_data_item (mkUrl ds wb (rest.get ⟨k, hk'⟩)) =
                  Except.error e := by
                simpa using hfail
              have hrec := ih rest { job with output_data := job.output_data ++ [u] }
                us hk' hrest hfail'
              simp only [post_output_data, hf, hrec]
              simp [List.append_assoc]

/-- C10 (witness): with two files where the first registration succeeds
and the second fails, the returned record keeps the one URI appended
before the failure along with the error message for the second URL. -/
theorem post_output_data_partial_witness :
    post_output_data sample_create none (pystr "http://data") (pystr "job_7")
        [pystr "a.dat", pystr "b.dat"] (sample_job JStatus.running) =
      ({ sample_job JStatus.running with
           output_data := (sample_job JStatus.running).output_data ++ [pystr "uri-a"] },
       some (pystr "Failed to create data item remotely at " ++
         mkUrl (pystr "http://data") (pystr "job_7") (pystr "b.dat") ++
         pystr ": " ++ pystr "boom")) :=
  post_output_data_partial sample_create none (pystr "http://data") (pystr "job_7")
    [pystr "a.dat", pystr "b.dat"] (sample_job JStatus.running) 1
    [pystr "uri-a"] (pystr "boom") (by decide)
    (List.Forall₂.cons rfl List.Forall₂.nil) rfl

/-- `nodupB` agrees with `List.Nodup`. -/
theorem nodupB_iff {l : List (List Char)} : nodupB l = true ↔ l.Nodup := by
  induction l with
  | nil => simp [nodupB]
  | cons x xs ih => simp [nodupB, ih, List.nodup_cons]

/-- Under distinct names, removing the first entry named `name` removes
every entry so named. -/
theorem remove_first_dir_eq_filter {name : List Char} :
    ∀ {ds : List (List Char × List Entry)}, (ds.map (fun d => d.1)).Nodup →
      remove_first_dir name ds = ds.filter (fun d => !(d.1 == name)) := by
  intro ds
  induction ds with
  | nil => intro _; rfl
  | cons x rest ih =>
      intro h
      rw [List.map_cons, List.nodup_cons] at h
      by_cases hx : x.1 = name
      · rw [remove_first_dir, if_pos hx, List.filter_cons]
        rw [if_neg (by simp [hx])]
        refine (List.filter_eq_self.mpr ?_).symm
        intro d hd
        have hne : d.1 ≠ name := by
          intro hEq
          exact h.1 (by rw [hx, ← hEq]; exact List.mem_map_of_mem (fun d => d.1) hd)
        simp [hne]
      · rw [remove_first_dir, if_neg hx, List.filter_cons]
        rw [if_pos (by simp [hx])]
        rw [ih h.2]

/-- Filtering preserves distinctness of the name projection. -/
theorem nodup_map_fst_filter (q : List Char × List Entry → Bool)
    {ds : List (List Char × List Entry)} (h : (ds.map (fun d => d.1)).Nodup) :
    ((ds.filter q).map (fun d => d.1)).Nodup :=
  h.sublist (List.Sublist.map (fun d => d.1) (List.filter_sublist ds))

/-- Under distinct sibling names, the source's prune-by-repeated-removal
equals a filter on the ignored-name set. -/
theorem prune_dirs_eq_filter :
    ∀ (igs : List (List Char)) (ds : List (List Char × List Entry)),
      (ds.map (fun d => d.1)).Nodup →
      prune_dirs igs ds = ds.filter (fun d => !(igs.contains d.1)) := by
  intro igs
  induction igs with
  | nil =>
      intro ds _
      show ds = ds.filter (fun d => !(([] : List (List Char)).contains d.1))
      simp
  | cons ig rest ih =>
      intro ds h
      show prune_dirs rest (remove_first_dir ig ds) = _
      rw [remove_first_dir_eq_filter h]
      rw [ih _ (nodup_map_fst_filter _ h)]
      rw [List.filter_filter]
      refine List.filter_congr ?_
      intro d _
      by_cases hig : d.1 = ig <;> by_cases hmem : d.1 ∈ rest <;>
        simp [List.contains_cons, hig, hmem]

/-- A pair belongs to `filesOf` exactly when the corresponding file
entry belongs to the children. -/
theorem mem_filesOf {f : List Char × Nat} :
    ∀ {children : List Entry}, f ∈ filesOf children ↔ Entry.file f.1 f.2 ∈ children := by
  intro children
  induction children with
  | nil => simp [filesOf]
  | cons e es ih =>
      cases e with
      | file n m =>
          simp only [filesOf, List.mem_cons, ih]
          constructor
          · rintro (h | h)
            · subst h; exact Or.inl rfl
            · exact Or.inr h
          · rintro (h | h)
            · cases h; exact Or.inl rfl
            · exact Or.inr h
      | dir n cs =>
          simp only [filesOf, List.mem_cons, ih]
          constructor
          · exact Or.inr
          · rintro (h | h)
            · cases h
            · exact h

/-- A pair belongs to `dirsOf` exactly when the corresponding directory
entry belongs to the children. -/
theorem mem_dirsOf {d : List Char × List Entry} :
    ∀ {children : List Entry}, d ∈ dirsOf children ↔ Entry.dir d.1 d.2 ∈ children := by
  intro children
  induction children with
  | nil => simp [dirsOf]
  | cons e es ih =>
      cases e with
      | file n m =>
          simp only [dirsOf, List.mem_cons, ih]
          constructor
          · exact Or.inr
          · rintro (h | h)
            · cases h
            · exact h
      | dir n cs =>
          simp only [dirsOf, List.mem_cons, ih]
          constructor
          · rintro (h | h)
            · subst h; exact Or.inl rfl
            · exact Or.inr h
          · rintro (h | h)
            · cases h; exact Or.inl rfl
            · exact Or.inr h

/-- Membership in `forest_files` decomposes over the children. -/
theorem mem_forest_files {fi : FileInfo} {rel : List Char} {above : List (List Char)} :
    ∀ {children : List Entry},
      fi ∈ forest_files rel above children ↔ ∃ e ∈ children, fi ∈ entry_files rel above e := by
  intro children
  induction children with
  | nil => simp [forest_files]
  | cons e es ih =>
      rw [forest_files]
      simp only [List.mem_append, ih, List.mem_cons]
      constructor
      · rintro (h | ⟨e', he', hfi⟩)
        · exact ⟨e, Or.inl rfl, h⟩
        · exact ⟨e', Or.inr he', hfi⟩
      · rintro ⟨e', he' | he', hfi⟩
        · exact Or.inl (he' ▸ hfi)
        · exact Or.inr ⟨e', he', hfi⟩

/-- Every file reached under an ancestry prefix keeps that prefix in its
recorded enclosing-directory names. -/
theorem above_mem_of_mem_forest_files (children : List Entry) (rel : List Char)
    (above : List (List Char)) (fi : FileInfo)
    (h : fi ∈ forest_files rel above children) : ∀ x ∈ above, x ∈ fi.above := by
  match children with
  | [] => simp [forest_files] at h
  | Entry.file n m :: es =>
      rw [forest_files] at h
      rcases List.mem_append.mp h with h1 | h2
      · intro x hx
        have h1' : fi = ⟨pjoin rel n, n, m, above⟩ := by
          simpa [entry_files] using h1
        rw [h1']
        exact hx
      · exact above_mem_of_mem_forest_files es rel above fi h2
  | Entry.dir n cs :: es =>
      rw [forest_files] at h
      rcases List.mem_append.mp h with h1 | h2
      · intro x hx
        rw [entry_files] at h1
        exact above_mem_of_mem_forest_files cs (pjoin rel n) (above ++ [n]) fi h1 x
          (List.mem_append.mpr (Or.inl hx))
      · exact above_mem_of_mem_forest_files es rel above fi h2
termination_by sizeOf children
decreasing_by
  · simp only [List.cons.sizeOf_spec]; omega
  · simp only [List.cons.sizeOf_spec, Entry.dir.sizeOf_spec]; omega
  · simp only [List.cons.sizeOf_spec]; omega

/-- Well-formedness of a list of entries restricts to each member. -/
theorem entry_wf_of_mem : ∀ {children : List Entry}, entries_wf children = true →
    ∀ {e : Entry}, e ∈ children → entry_wf e = true := by
  intro children
  induction children with
  | nil => intro _ e he; cases he
  | cons a es ih =>
      intro hw e he
      rw [entries_wf, Bool.and_eq_true] at hw
      rcases List.mem_cons.mp he with h | h
      · exact h ▸ hw.1
      · exact ih hw.2 h

/-- A well-formed directory entry has well-formed children. -/
theorem forest_wf_of_entry_wf_dir {n : List Char} {cs : List Entry}
    (h : entry_wf (Entry.dir n cs) = true) : forest_wf cs = true := by
  rw [entry_wf] at h
  rw [forest_wf]
  exact h

/-- Membership in the walk's flattened recursion over the attached
pruned list reduces to a plain existential over the pruned list. -/
theorem mem_walk_flatten {ts : Nat} {rel : List Char}
    {pruned : List (List Char × List Entry)} {p : List Char} :
    p ∈ (pruned.attach.map
        (fun d => walk_new_files ts (pjoin rel d.1.1) d.1.2)).flatten ↔
      ∃ d ∈ pruned, p ∈ walk_new_files ts (pjoin rel d.1) d.2 := by
  simp only [List.mem_flatten, List.mem_map, List.mem_attach, true_and,
    Subtype.exists, Prod.exists]
  constructor
  · rintro ⟨l, ⟨a, b, hab, hwalk⟩, hpl⟩
    exact ⟨a, b, hab, hwalk ▸ hpl⟩
  · rintro ⟨a, b, hab, hpw⟩
    exact ⟨_, ⟨a, b, hab, rfl⟩, hpw⟩

/-- The walk with pruning computes, level by level, exactly the
spec-side selection: provided sibling directory names are distinct and no
ancestor so far is ignored, a path is produced by the pruned walk iff it
is the relative path of a file passing the harvest criterion. -/
theorem walk_mem_iff (ts : Nat) (children : List Entry) (rel : List Char)
    (above : List (List Char)) (hwf : forest_wf children = true)
    (habove : ∀ x ∈ above, ignoredirs.contains x = false) (p : List Char) :
    p ∈ walk_new_files ts rel children ↔
      p ∈ ((forest_files rel above children).filter (harv_pred ts)).map
        (fun fi => fi.relpath) := by
  rw [forest_wf, Bool.and_eq_true] at hwf
  obtain ⟨hnd, hew⟩ := hwf
  rw [dir_names] at hnd
  have hndup := nodupB_iff.mp hnd
  have hprune : prune_dirs ignoredirs (dirsOf children) =
      (dirsOf children).filter (fun d => !(ignoredirs.contains d.1)) :=
    prune_dirs_eq_filter ignoredirs (dirsOf children) hndup
  rw [walk_new_files]
  constructor
  · intro hp
    rcases List.mem_append.mp hp with hfile | hdir
    · rcases List.mem_map.mp hfile with ⟨f, hf, hfp⟩
      rcases List.mem_filter.mp hf with ⟨hmem, hpred⟩
      rw [Bool.and_eq_true] at hpred
      obtain ⟨hext, hts⟩ := hpred
      refine List.mem_map.mpr
        ⟨⟨pjoin rel f.1, f.1, f.2, above⟩, List.mem_filter.mpr ⟨?_, ?_⟩, hfp⟩
      · exact mem_forest_files.mpr ⟨Entry.file f.1 f.2, mem_filesOf.mp hmem, by
          rw [entry_files]; exact List.mem_singleton.mpr rfl⟩
      · show (decide (f.2 ≥ ts) &&
            !(ignore_extensions.contains (splitext_ext f.1)) &&
            above.all (fun d => !(ignoredirs.contains d))) = true
        rw [Bool.and_eq_true, Bool.and_eq_true]
        refine ⟨⟨hts, hext⟩, ?_⟩
        rw [List.all_eq_true]
        intro x hx
        simp only [Bool.not_eq_true']
        exact habove x hx
    · rw [mem_walk_flatten] at hdir
      rcases hdir with ⟨d, hd, hpw⟩
      rw [hprune] at hd
      rcases List.mem_filter.mp hd with ⟨hdmem, hdig⟩
      have hdig' : ignoredirs.contains d.1 = false := by
        simpa using hdig
      have he : Entry.dir d.1 d.2 ∈ children := mem_dirsOf.mp hdmem
      have hwfd : forest_wf d.2 = true :=
        forest_wf_of_entry_wf_dir (entry_wf_of_mem hew he)
      have habove' : ∀ x ∈ above ++ [d.1], ignoredirs.contains x = false := by
        intro x hx
        rcases List.mem_append.mp hx with hx | hx
        · exact habove x hx
        · rw [List.mem_singleton.mp hx]; exact hdig'
      have hterm : sizeOf d.2 < sizeOf children := sizeOf_of_mem_dirsOf hdmem
      have hrec := walk_mem_iff ts d.2 (pjoin rel d.1) (above ++ [d.1]) hwfd habove' p
      have hp2 := hrec.mp hpw
      rcases List.mem_map.mp hp2 with ⟨fi, hfi, hfirel⟩
      rcases List.mem_filter.mp hfi with ⟨hff, hhp⟩
      refine List.mem_map.mpr ⟨fi, List.mem_filter.mpr ⟨?_, hhp⟩, hfirel⟩
      exact mem_forest_files.mpr ⟨Entry.dir d.1 d.2, he, by rw [entry_files]; exact hff⟩
  · intro hp
    rcases List.mem_map.mp hp with ⟨fi, hfi, hfirel⟩
    rcases List.mem_filter.mp hfi with ⟨hff, hhp⟩
    rcases mem_forest_files.mp hff with ⟨e, he, hfe⟩
    cases e with
    | file n m =>
        have h1 : fi = ⟨pjoin rel n, n, m, above⟩ := by
          simpa [entry_files] using hfe
        rw [h1] at hhp hfirel
        simp only [harv_pred, Bool.and_eq_true] at hhp
        obtain ⟨⟨hts, hext⟩, _⟩ := hhp
        refine List.mem_append.mpr (Or.inl ?_)
        refine List.mem_map.mpr ⟨(n, m), List.mem_filter.mpr ⟨mem_filesOf.mpr he, ?_⟩,
          hfirel⟩
        show (!(ignore_extensions.contains (splitext_ext n)) && decide (m ≥ ts)) = true
        rw [Bool.and_eq_true]
        exact ⟨hext, hts⟩
    | dir nm cs =>
        rw [entry_files] at hfe
        by_cases hig : ignoredirs.contains nm
        · exfalso
          have hmm := above_mem_of_mem_forest_files cs (pjoin rel nm) (above ++ [nm]) fi
            hfe nm (List.mem_append.mpr (Or.inr (List.mem_singleton.mpr rfl)))
          simp only [harv_pred, Bool.and_eq_true] at hhp
          have hall := hhp.2
          rw [List.all_eq_true] at hall
          have hx := hall nm hmm
          rw [hig] at hx
          simp at hx
        · have hig' : ignoredirs.contains nm = false := by
            simpa using hig
          have hwfd : forest_wf cs = true :=
            forest_wf_of_entry_wf_dir (entry_wf_of_mem hew he)
          have habove' : ∀ x ∈ above ++ [nm], ignoredirs.contains x = false := by
            intro x hx
            rcases List.mem_append.mp hx with hx | hx
            · exact habove x hx
            · rw [List.mem_singleton.mp hx]; exact hig'
          have hdmem : (nm, cs) ∈ dirsOf children := mem_dirsOf.mpr he
          have hterm : sizeOf cs < sizeOf children := sizeOf_of_mem_dirsOf hdmem
          have hrec := walk_mem_iff ts cs (pjoin rel nm) (above ++ [nm]) hwfd habove' p
          have hpw : p ∈ walk_new_files ts (pjoin rel nm) cs :=
            hrec.mpr (List.mem_map.mpr ⟨fi, List.mem_filter.mpr ⟨hfe, hhp⟩, hfirel⟩)
          refine List.mem_append.mpr (Or.inr ?_)
          rw [mem_walk_flatten]
          refine ⟨(nm, cs), ?_, hpw⟩
          rw [hprune]
          exact List.mem_filter.mpr ⟨hdmem, by
            simp only [Bool.not_eq_true']
            exact hig'⟩
termination_by sizeOf children
decreasing_by
  · exact hterm
  · exact hterm

/-- C4.  `_find_new_data_files` (lines 250-270) is exact: on every
well-formed directory tree (distinct sibling directory names, as in any
real filesystem) and for every reference timestamp, the returned set
equals exactly the relative paths of the files whose last-modified time
is at or after the timestamp (inclusive boundary) that lie outside the
ignored directories and do not carry an ignored extension. -/
theorem find_new_data_files_exact (ts : Nat) (children : List Entry)
    (hwf : forest_wf children = true) (p : List Char) :
    p ∈ find_new_data_files ts children ↔ p ∈ harvested_spec ts children := by
  rw [find_new_data_files, harvested_spec]
  exact walk_mem_iff ts children [] [] hwf (by intro x hx; cases hx) p

/-- C4 (witness): on the sample tree — files older and newer than the
timestamp, an ignored `.git` directory, an ignored `.pyc` extension and
a surviving subdirectory — the walk and the spec-side selection agree on
the nested fresh file `sub/b.txt`. -/
theorem find_new_data_files_exact_witness :
    forest_wf sample_tree = true ∧
    (pystr "sub/b.txt" ∈ find_new_data_files 5 sample_tree ↔
      pystr "sub/b.txt" ∈ harvested_spec 5 sample_tree) :=
  ⟨by decide, find_new_data_files_exact 5 sample_tree (by decide) (pystr "sub/b.txt")⟩
